import Mathlib

/-!
Verification of the pyZoneGit DNS zone-file validation pipeline.

This file gives a shallow embedding of `pyZoneGit.py`: the zone-file
listing filter, the revision-count logic, the zone/serial/origin parsers
(the regular expressions are embedded as explicit character-list
matchers), the serial/origin validators, the external-checker adapter,
and the `pre_commit` orchestrator.  External effects are made explicit
parameters: the current calendar date (from `datetime.now().strftime`)
is a string parameter, `git` command outputs are list/string parameters,
and the `named-checkzone` invocation is represented by its exit status.
-/

/-- Characters matched by Python's `\s` on ASCII text (` `, TAB, LF, CR, VT, FF). -/
def isSpaceChar (c : Char) : Bool :=
  c == ' ' || c == '\t' || c == '\n' || c == '\r' || c == '\x0b' || c == '\x0c'

/-- Characters matched by `[ \t]` (blank characters). -/
def isBlankChar (c : Char) : Bool :=
  c == ' ' || c == '\t'

/-- Characters matched by the class `[a-zA-Z0-9-]` of the SOA/ORIGIN name patterns. -/
def isLabelChar (c : Char) : Bool :=
  c.isAlpha || c.isDigit || c == '-'

/-- Characters matched by the class `[a-zA-Z0-9-\.]`. -/
def isLabelDotChar (c : Char) : Bool :=
  isLabelChar c || c == '.'

/-! ### Backtracking matcher combinators

These give the existential ("does the pattern match here?") semantics of the
regular-expression fragments used by `parse_zone`: `litThen lit k` matches the
literal `lit` and then continues with `k`; `plusThen p k` matches `X+` for a
character class `X` (one or more, any split, as regex backtracking would try);
`starThen p k` matches `X*`. -/

def litThen : List Char → (List Char → Bool) → List Char → Bool
  | [], k, cs => k cs
  | _ :: _, _, [] => false
  | l :: ls, k, c :: cs => c == l && litThen ls k cs

def plusThen (p : Char → Bool) (k : List Char → Bool) : List Char → Bool
  | [] => false
  | c :: cs => p c && (k cs || plusThen p k cs)

def starThen (p : Char → Bool) (k : List Char → Bool) : List Char → Bool
  | [] => k []
  | c :: cs => k (c :: cs) || (p c && starThen p k cs)

/-- Matcher for the tail `\s+IN\s+SOA` of the SOA-line pattern of `parse_zone`. -/
def soaTail : List Char → Bool :=
  plusThen isSpaceChar (litThen ("IN".toList)
    (plusThen isSpaceChar (litThen ("SOA".toList) (fun _ => true))))

/-- Matcher (at one `^` position) for `parse_zone`'s SOA pattern
`^\s*([a-zA-Z0-9-]+[a-zA-Z0-9-\.]+)\s+IN\s+SOA`. -/
def soaNameMatch : List Char → Bool :=
  starThen isSpaceChar (plusThen isLabelChar (plusThen isLabelDotChar soaTail))

/-- Matcher (at one `^` position) for `parse_zone`'s fallback pattern
`^\s*\$ORIGIN\s+([a-zA-Z0-9-]+[a-zA-Z0-9-\.]+)`. -/
def originNameMatch : List Char → Bool :=
  starThen isSpaceChar (litThen ("$ORIGIN".toList)
    (plusThen isSpaceChar (plusThen isLabelChar (plusThen isLabelDotChar (fun _ => true)))))

/-- Tries a matcher at every position that immediately follows a newline
(the non-initial `^` anchor positions of `re.MULTILINE`). -/
def searchAfterNl (m : List Char → Bool) : List Char → Bool
  | [] => false
  | c :: cs => (c == '\n' && m cs) || searchAfterNl m cs

/-- `re.search` with `re.MULTILINE` for a pattern anchored by `^`: try the
matcher at position 0 and after every newline. -/
def searchML (m : List Char → Bool) (cs : List Char) : Bool :=
  m cs || searchAfterNl m cs

/-- Success predicate of `parse_zone` (the zone name is parsed from the first
SOA line, else from the first `$ORIGIN` directive; on no match the script does
`sys.exit(1)`).  The extracted name itself only flows into logging and into the
`named-checkzone` invocation, which this embedding represents by its exit
status, so only the success/failure of the parse is modelled. -/
def parse_zone_ok (data : String) : Bool :=
  searchML soaNameMatch data.toList || searchML originNameMatch data.toList

/-! ### parse_serial

The pattern `IN\s+SOA\s+[A-Za-z0-9-\.]+\s+[A-Za-z0-9-\.]+\s+\(\s+(\d+)` has
disjoint character sets at every adjacent quantifier boundary (whitespace vs.
`[A-Za-z0-9-\.]` vs. `(` vs. digits), so greedy matching with no backtracking
is equivalent to Python's semantics; `eatLit`/`eatPlus` implement it. -/

def eatLit : List Char → List Char → Option (List Char)
  | [], cs => some cs
  | _ :: _, [] => none
  | l :: ls, c :: cs => if c == l then eatLit ls cs else none

def eatPlus (p : Char → Bool) : List Char → Option (List Char)
  | [] => none
  | c :: cs => if p c then some (cs.dropWhile p) else none

/-- Value of Python's `int()` on a string of decimal digits. -/
def digitsVal (ds : List Char) : Nat :=
  ds.foldl (fun acc c => 10 * acc + (c.toNat - '0'.toNat)) 0

/-- Match `parse_serial`'s pattern starting exactly at this position and
return the captured serial. -/
def serialAt (cs : List Char) : Option Nat :=
  (eatLit ("IN".toList) cs).bind (fun cs1 =>
  (eatPlus isSpaceChar cs1).bind (fun cs2 =>
  (eatLit ("SOA".toList) cs2).bind (fun cs3 =>
  (eatPlus isSpaceChar cs3).bind (fun cs4 =>
  (eatPlus isLabelDotChar cs4).bind (fun cs5 =>
  (eatPlus isSpaceChar cs5).bind (fun cs6 =>
  (eatPlus isLabelDotChar cs6).bind (fun cs7 =>
  (eatPlus isSpaceChar cs7).bind (fun cs8 =>
  (eatLit ("(".toList) cs8).bind (fun cs9 =>
  (eatPlus isSpaceChar cs9).bind (fun cs10 =>
  (let ds := cs10.takeWhile Char.isDigit
   if ds.isEmpty then none else some (digitsVal ds))))))))))))

/-- Leftmost search for `serialAt` (Python `re.search` tries every start
position from the left). -/
def searchSerial : List Char → Option Nat
  | [] => none
  | c :: cs =>
    match serialAt (c :: cs) with
    | some n => some n
    | none => searchSerial cs

/-- Embedding of `parse_serial`: first integer of the SOA parenthesized block;
`none` models the fatal `sys.exit(1)` on no match. -/
def parse_serial (data : String) : Option Nat :=
  searchSerial data.toList

/-! ### check_serial -/

/-- `lo.toNat ≤ c.toNat ≤ hi.toNat`, i.e. a character range of a regex class. -/
def charBetween (lo hi c : Char) : Bool :=
  lo.toNat ≤ c.toNat && c.toNat ≤ hi.toNat

/-- Branch `19[7-9][0-9]` of the new-zone serial pattern. -/
def br1 : List Char → Bool
  | c0 :: c1 :: a :: b :: _ => c0 == '1' && c1 == '9' && charBetween '7' '9' a && b.isDigit
  | _ => false

/-- Branch `[2-9][0-9]{3}0[1-9]` of the new-zone serial pattern. -/
def br2 : List Char → Bool
  | a :: b :: c :: d :: e :: f :: _ =>
    charBetween '2' '9' a && b.isDigit && c.isDigit && d.isDigit && e == '0' &&
      charBetween '1' '9' f
  | _ => false

/-- Branch `1[12][012][0-9]` of the new-zone serial pattern. -/
def br3 : List Char → Bool
  | c0 :: a :: b :: c :: _ =>
    c0 == '1' && (a == '1' || a == '2') && (b == '0' || b == '1' || b == '2') && c.isDigit
  | _ => false

/-- Branch `3[01]\d\d` of the new-zone serial pattern. -/
def br4 : List Char → Bool
  | c0 :: a :: b :: c :: _ =>
    c0 == '3' && (a == '0' || a == '1') && b.isDigit && c.isDigit
  | _ => false

/-- One of the four alternation branches matches at this position. -/
def legacyAt (cs : List Char) : Bool :=
  br1 cs || br2 cs || br3 cs || br4 cs

/-- Substring search for the alternation. -/
def legacyAny : List Char → Bool
  | [] => false
  | c :: cs => legacyAt (c :: cs) || legacyAny cs

/-- `re.search` of `19[7-9][0-9]|[2-9][0-9]{3}0[1-9]|1[12][012][0-9]|3[01]\d\d`
on a string (the "plausible legacy serial" pattern used when no baseline
serial exists). -/
def legacySearch (s : String) : Bool :=
  legacyAny s.toList

/-- Matcher for `rf"^{date}\d\d$"` applied to the decimal string of a serial.
`date` is the 8 digits of `strftime("%Y%m%d")` (so it has no regex
metacharacters) and `str(serial)` contains no newline, hence the anchored
pattern matches exactly when the string is `date` followed by two digits. -/
def goDate : List Char → List Char → Bool
  | [], [a, b] => a.isDigit && b.isDigit
  | [], _ => false
  | _ :: _, [] => false
  | d :: ds, c :: cs => c == d && goDate ds cs

def dateSerialMatch (date s : String) : Bool :=
  goDate date.toList s.toList

/-- Embedding of `check_serial`.  `date` is today's date as `YYYYMMDD`
(`datetime.now()` made explicit); `serial_rev1` is `None` when the zone has no
baseline revision.  The error counter is set to 1 (not incremented twice) on a
format failure and again on an increment failure. -/
def check_serial (date : String) (serial_rev0 : Nat) (serial_rev1 : Option Nat) : Nat :=
  let fmt_hit :=
    match serial_rev1 with
    | none => legacySearch (toString serial_rev0)
    | some _ => dateSerialMatch date (toString serial_rev0)
  let err_counter : Nat := if fmt_hit then 0 else 1
  match serial_rev1 with
  | none => err_counter
  | some s1 => if serial_rev0 > s1 then err_counter else 1

/-! ### check_zone -/

/-- Embedding of `check_zone`: `exec_cmd` raises `CommandExecutionError` on a
non-zero exit of `named-checkzone`, and `check_zone` returns
`error.returncode` from the handler; on success it returns
`result.returncode`, which is 0.  The argument is the tool's exit status. -/
def check_zone (returncode : Nat) : Nat :=
  if returncode = 0 then 0 else returncode

/-! ### parse_origin / check_origin -/

/-- Split on newline characters, like Python line-by-line matching of a
`re.MULTILINE` pattern `^...$` (and like `str.split("\n")`). -/
def splitNl : List Char → List (List Char)
  | [] => [[]]
  | c :: rest =>
    if c = '\n' then [] :: splitNl rest
    else (c :: (splitNl rest).headD []) :: (splitNl rest).tail

/-- A line matches `^[ \t]*\$ORIGIN.*$`: optional blanks, then the literal
`$ORIGIN` (the rest of the line, matched by `.*$`, always succeeds within one
line). -/
def originDirectiveLine (cs : List Char) : Bool :=
  ("$ORIGIN".toList).isPrefixOf (cs.dropWhile isBlankChar)

/-- Embedding of `parse_origin`: `re.findall(r"^[ \t]*\$ORIGIN.*$", data,
re.MULTILINE)` returns, in order, every line that begins with optional blanks
and `$ORIGIN` (each match is the whole line, since `.` does not cross
newlines). -/
def parse_origin (data : String) : List String :=
  ((splitNl data.toList).filter originDirectiveLine).map (fun l => ⟨l⟩)

/-- A line matches `check_origin`'s pattern `^[ \t]*\$ORIGIN.*\.$` (no
`re.MULTILINE`): optional blanks, the literal `$ORIGIN`, then `.*\.`, ending at
the end of the string (or just before one final newline, which `$` also
accepts). -/
def originLineOk (line : String) : Bool :=
  let cs := line.toList
  let body := if cs.getLast? == some '\n' then cs.dropLast else cs
  ("$ORIGIN".toList).isPrefixOf (body.dropWhile isBlankChar)
    && body.getLast? == some '.'
    && !(body.any (fun c => c == '\n'))

/-- Embedding of `check_origin`: the error counter is set to 1 on every
non-conforming directive line (so it ends at 0 or 1). -/
def check_origin (origin_list : List String) : Nat :=
  origin_list.foldl (fun err line => if originLineOk line then err else 1) 0

/-! ### Zone-file listing (get_all_zonefiles / get_changed_zonefiles) -/

/-- `os.path.basename`: everything after the last `/`. -/
def basename (p : String) : String :=
  ⟨(p.toList.reverse.takeWhile (fun c => !(c == '/'))).reverse⟩

/-- `re.search` of `^db\.|\.db$|\.zone$|\.rev$|\.rpz$` on a basename (which
contains no newline, so `$` is end-of-string). -/
def zonefilePattern (b : String) : Bool :=
  ("db.".toList).isPrefixOf b.toList
    || (".db".toList).isSuffixOf b.toList
    || (".zone".toList).isSuffixOf b.toList
    || (".rev".toList).isSuffixOf b.toList
    || (".rpz".toList).isSuffixOf b.toList

/-- Python `list.remove`: delete the first occurrence of the value (the source
only calls it on a present element, so the `ValueError` path cannot occur). -/
def removeFirst : List String → String → List String
  | [], _ => []
  | a :: rest, x => if a = x then rest else a :: removeFirst rest x

/-- The filtering loop of `get_all_zonefiles`/`get_changed_zonefiles`:
`for item in file_list: if not pattern.search(basename(item)): file_list.remove(item)`.
Python's list iterator reads `file_list[i]` and advances `i` each iteration
even when the body removed the current element, so the element that shifts
into position `i` is skipped.  `fuel` is an explicit bound on the number of
iterations (each iteration increases `i` by 1 while the length never grows,
so `l.length - i` iterations always suffice). -/
def filterLoopFuel : Nat → List String → Nat → List String
  | 0, l, _ => l
  | fuel + 1, l, i =>
    if h : i < l.length then
      if zonefilePattern (basename (l.get ⟨i, h⟩)) then
        filterLoopFuel fuel l (i + 1)
      else
        filterLoopFuel fuel (removeFirst l (l.get ⟨i, h⟩)) (i + 1)
    else l

/-- Run the filtering loop from index 0 with sufficient fuel. -/
def zonefileScan (l : List String) : List String :=
  filterLoopFuel l.length l 0

/-- Embedding of `get_all_zonefiles`: the argument is `git ls-files` output
already split on newlines; `filter(None, ...)` drops empty strings, then the
(index-skipping) pattern filter loop runs. -/
def get_all_zonefiles (file_list : List String) : List String :=
  zonefileScan (file_list.filter (fun s => !(s == "")))

/-- Embedding of `get_changed_zonefiles`: identical filtering applied to the
`git diff --name-only --diff-filter=d` output split on newlines. -/
def get_changed_zonefiles (file_list : List String) : List String :=
  zonefileScan (file_list.filter (fun s => !(s == "")))

/-! ### Invocation context and revision count -/

/-- The two invocation contexts set by `init()`. -/
inductive CallMethod
  | gitHook
  | ciCd
deriving DecidableEq

/-- Embedding of `get_rev_count`: `raw` is the output of
`git rev-list --count HEAD [-- zonefile]` as an integer, or `none` when the
command failed (the bare `except` sets the count to 0).  In `ci-cd` mode the
raw count is decremented by 1. -/
def get_rev_count (method : CallMethod) (raw : Option Int) : Int :=
  match raw with
  | none => 0
  | some n =>
    match method with
    | CallMethod.gitHook => n
    | CallMethod.ciCd => n - 1

/-- The file-selection logic of `main()`: with revision count 0 every tracked
zone file is validated, with a positive count only the changed files; any
other count leaves `file_list` unbound (a `NameError`), modelled as `none`. -/
def mainFileSelection (rev_count : Int) (tracked changed : List String) :
    Option (List String) :=
  if rev_count = 0 then some (get_all_zonefiles tracked)
  else if rev_count > 0 then some (get_changed_zonefiles changed)
  else none

/-! ### The pre_commit orchestrator -/

/-- Per-file inputs of one `pre_commit` iteration: the file's content at
revision 0 (current) and revision 1 (baseline) as fetched by `read_file`, the
result of `get_rev_count` for the file, and the exit status of the
`named-checkzone` invocation on it. -/
structure ZFile where
  data0 : String
  data1 : String
  revCount : Int
  zoneExit : Nat
deriving DecidableEq

/-- The three validation stages of `pre_commit`, recorded in execution order
so that skipping is observable. -/
inductive Stage
  | zone
  | serial
  | origin
deriving DecidableEq

/-- One iteration of the `pre_commit` loop for the file `f`, starting from the
aggregate counter `err0` (Python's `tmp_counter` is `err0`).  Returns `none`
for the fatal `sys.exit(1)` of `parse_zone`/`parse_serial`; otherwise the new
aggregate counter together with the list of check stages that ran.  Each later
stage is guarded by `tmp_counter == err_counter`, the source's
skip-on-earlier-failure test. -/
def fileStep (date : String) (err0 : Nat) (f : ZFile) : Option (Nat × List Stage) :=
  if parse_zone_ok f.data0 then
    let err1 := err0 + check_zone f.zoneExit
    let step2 : Option (Nat × List Stage) :=
      if err0 = err1 ∧ f.revCount = 0 then
        match parse_serial f.data0 with
        | none => none
        | some s0 => some (err1 + check_serial date s0 none, [Stage.zone, Stage.serial])
      else some (err1, [Stage.zone])
    match step2 with
    | none => none
    | some (err2, st2) =>
      let step3 : Option (Nat × List Stage) :=
        if err0 = err2 ∧ f.revCount > 0 then
          match parse_serial f.data0 with
          | none => none
          | some s0 =>
            match parse_serial f.data1 with
            | none => none
            | some s1 => some (err2 + check_serial date s0 (some s1), st2 ++ [Stage.serial])
        else some (err2, st2)
      match step3 with
      | none => none
      | some (err3, st3) =>
        if err0 = err3 then
          some (err3 + check_origin (parse_origin f.data0), st3 ++ [Stage.origin])
        else some (err3, st3)
  else none

/-- The `pre_commit` loop over the remaining files with aggregate counter
`err`; `none` is the fatal mid-run `sys.exit(1)`. -/
def preCommitAux (date : String) (err : Nat) : List ZFile → Option Nat
  | [] => some err
  | f :: rest =>
    match fileStep date err f with
    | none => none
    | some (e, _) => preCommitAux date e rest

/-- Embedding of `pre_commit` up to its final exit test. -/
def pre_commit (date : String) (files : List ZFile) : Option Nat :=
  preCommitAux date 0 files

/-- Process exit code of a `pre_commit` run: 1 on a fatal parse abort, 1 when
the final aggregate counter is non-zero (`if err_counter: sys.exit(1)`), else
0. -/
def preCommitExit (date : String) (files : List ZFile) : Nat :=
  match pre_commit date files with
  | none => 1
  | some e => if e = 0 then 0 else 1

/-! ### Concrete zone files used in the closed theorems -/

/-- A parseable new zone whose serial `42` fails the new-zone format pattern
and whose single `$ORIGIN` directive lacks the trailing dot. -/
def zoneTextSerial42 : String :=
  "example.com. IN SOA ns.example.com. admin.example.com. ( 42 3600 600 86400 60 )\n$ORIGIN example.com\n"

/-- A zone whose SOA opening parenthesis is immediately followed by the
serial, with no intervening whitespace. -/
def zoneTextNoParenSpace : String :=
  "example.com. IN SOA ns.example.com. admin.example.com. (2024010100 3600 600 86400 60 )\n"

/-- The same zone with one space after the opening parenthesis. -/
def zoneTextParenSpace : String :=
  "example.com. IN SOA ns.example.com. admin.example.com. ( 2024010100 3600 600 86400 60 )\n"

/-- New zone, external check passes, serial 42 fails validation, bad origin. -/
def zf7 : ZFile :=
  { data0 := zoneTextSerial42, data1 := "", revCount := 0, zoneExit := 0 }

/-- New zone whose serial cannot be parsed (no whitespace after `(`). -/
def zf10 : ZFile :=
  { data0 := zoneTextNoParenSpace, data1 := "", revCount := 0, zoneExit := 0 }

/-- New zone with a valid serial whose external check fails with exit 1. -/
def zf2 : ZFile :=
  { data0 := zoneTextParenSpace, data1 := "", revCount := 0, zoneExit := 1 }

/-- Content with no SOA line and no `$ORIGIN` directive: the zone name is
unparsable. -/
def zfBadZone : ZFile :=
  { data0 := "no records here", data1 := "", revCount := 0, zoneExit := 0 }

/-! ### Spec-side predicates -/

/-- The spec's condition for an existing zone's serial: its decimal string is
exactly today's date as `YYYYMMDD` followed by two arbitrary digits. -/
def TodayStampedSerial (date : String) (n : Nat) : Prop :=
  ∃ a b : Char, a.isDigit = true ∧ b.isDigit = true ∧
    (toString n).toList = date.toList ++ [a, b]

/-- A character-list position at which one of the four alternation branches
`19[7-9][0-9]`, `[2-9][0-9]{3}0[1-9]`, `1[12][012][0-9]`, `3[01]\d\d`
matches, stated as an explicit decomposition. -/
def IsLegacyHit (cs : List Char) : Prop :=
  (∃ a b t, cs = '1' :: '9' :: a :: b :: t ∧
    charBetween '7' '9' a = true ∧ b.isDigit = true) ∨
  (∃ a b c d f t, cs = a :: b :: c :: d :: '0' :: f :: t ∧
    charBetween '2' '9' a = true ∧ b.isDigit = true ∧ c.isDigit = true ∧
    d.isDigit = true ∧ charBetween '1' '9' f = true) ∨
  (∃ a b c t, cs = '1' :: a :: b :: c :: t ∧
    (a = '1' ∨ a = '2') ∧ (b = '0' ∨ b = '1' ∨ b = '2') ∧ c.isDigit = true) ∨
  (∃ a b c t, cs = '3' :: a :: b :: c :: t ∧
    (a = '0' ∨ a = '1') ∧ b.isDigit = true ∧ c.isDigit = true)

/-- The spec's condition for a new zone's serial: its decimal string contains
a substring matching the date-like alternation. -/
def ContainsLegacyStamp (s : String) : Prop :=
  ∃ l r, s.toList = l ++ r ∧ IsLegacyHit r

/-! ### Helper lemmas: the date-anchored serial matcher -/

lemma goDate_iff (ds cs : List Char) :
    goDate ds cs = true ↔
      ∃ a b : Char, a.isDigit = true ∧ b.isDigit = true ∧ cs = ds ++ [a, b] := by
  induction ds generalizing cs with
  | nil =>
    match cs with
    | [] => simp [goDate]
    | [a] => simp [goDate]
    | [a, b] =>
      simp only [goDate, Bool.and_eq_true, List.nil_append]
      constructor
      · rintro ⟨ha, hb⟩; exact ⟨a, b, ha, hb, rfl⟩
      · rintro ⟨a', b', ha, hb, h⟩
        injection h with h1 h2
        injection h2 with h2 h3
        subst h1; subst h2
        exact ⟨ha, hb⟩
    | a :: b :: c :: t => simp [goDate]
  | cons d ds ih =>
    match cs with
    | [] => simp [goDate]
    | c :: cs =>
      simp only [goDate, Bool.and_eq_true, beq_iff_eq, ih, List.cons_append,
        List.cons.injEq]
      constructor
      · rintro ⟨rfl, a, b, ha, hb, rfl⟩
        exact ⟨a, b, ha, hb, rfl, rfl⟩
      · rintro ⟨a, b, ha, hb, rfl, rfl⟩
        exact ⟨rfl, a, b, ha, hb, rfl⟩

lemma dateSerialMatch_iff (date : String) (n : Nat) :
    dateSerialMatch date (toString n) = true ↔ TodayStampedSerial date n := by
  unfold dateSerialMatch TodayStampedSerial
  rw [goDate_iff]

/-! ### Helper lemmas: the legacy-format search -/

lemma br1_iff (cs : List Char) :
    br1 cs = true ↔
      ∃ a b t, cs = '1' :: '9' :: a :: b :: t ∧
        charBetween '7' '9' a = true ∧ b.isDigit = true := by
  match cs with
  | [] => simp [br1]
  | [c0] => simp [br1]
  | [c0, c1] => simp [br1]
  | [c0, c1, c2] => simp [br1]
  | c0 :: c1 :: a :: b :: t =>
    simp only [br1, Bool.and_eq_true, beq_iff_eq, List.cons.injEq]
    constructor
    · rintro ⟨⟨⟨rfl, rfl⟩, ha⟩, hb⟩
      exact ⟨a, b, t, ⟨rfl, rfl, rfl, rfl, rfl⟩, ha, hb⟩
    · rintro ⟨a', b', t', ⟨rfl, rfl, rfl, rfl, rfl⟩, ha, hb⟩
      exact ⟨⟨⟨rfl, rfl⟩, ha⟩, hb⟩

lemma br2_iff (cs : List Char) :
    br2 cs = true ↔
      ∃ a b c d f t, cs = a :: b :: c :: d :: '0' :: f :: t ∧
        charBetween '2' '9' a = true ∧ b.isDigit = true ∧ c.isDigit = true ∧
        d.isDigit = true ∧ charBetween '1' '9' f = true := by
  match cs with
  | [] => simp [br2]
  | [c0] => simp [br2]
  | [c0, c1] => simp [br2]
  | [c0, c1, c2] => simp [br2]
  | [c0, c1, c2, c3] => simp [br2]
  | [c0, c1, c2, c3, c4] => simp [br2]
  | a :: b :: c :: d :: e :: f :: t =>
    simp only [br2, Bool.and_eq_true, beq_iff_eq, List.cons.injEq]
    constructor
    · rintro ⟨⟨⟨⟨⟨ha, hb⟩, hc⟩, hd⟩, rfl⟩, hf⟩
      exact ⟨a, b, c, d, f, t, ⟨rfl, rfl, rfl, rfl, rfl, rfl, rfl⟩, ha, hb, hc, hd, hf⟩
    · rintro ⟨a', b', c', d', f', t', ⟨rfl, rfl, rfl, rfl, rfl, rfl, rfl⟩, ha, hb, hc, hd, hf⟩
      exact ⟨⟨⟨⟨⟨ha, hb⟩, hc⟩, hd⟩, rfl⟩, hf⟩

lemma br3_iff (cs : List Char) :
    br3 cs = true ↔
      ∃ a b c t, cs = '1' :: a :: b :: c :: t ∧
        (a = '1' ∨ a = '2') ∧ (b = '0' ∨ b = '1' ∨ b = '2') ∧ c.isDigit = true := by
  match cs with
  | [] => simp [br3]
  | [c0] => simp [br3]
  | [c0, c1] => simp [br3]
  | [c0, c1, c2] => simp [br3]
  | c0 :: a :: b :: c :: t =>
    simp only [br3, Bool.and_eq_true, Bool.or_eq_true, beq_iff_eq, List.cons.injEq, or_assoc]
    constructor
    · rintro ⟨⟨⟨rfl, ha⟩, hb⟩, hc⟩
      exact ⟨a, b, c, t, ⟨rfl, rfl, rfl, rfl, rfl⟩, ha, hb, hc⟩
    · rintro ⟨a', b', c', t', ⟨rfl, rfl, rfl, rfl, rfl⟩, ha, hb, hc⟩
      exact ⟨⟨⟨rfl, ha⟩, hb⟩, hc⟩

lemma br4_iff (cs : List Char) :
    br4 cs = true ↔
      ∃ a b c t, cs = '3' :: a :: b :: c :: t ∧
        (a = '0' ∨ a = '1') ∧ b.isDigit = true ∧ c.isDigit = true := by
  match cs with
  | [] => simp [br4]
  | [c0] => simp [br4]
  | [c0, c1] => simp [br4]
  | [c0, c1, c2] => simp [br4]
  | c0 :: a :: b :: c :: t =>
    simp only [br4, Bool.and_eq_true, Bool.or_eq_true, beq_iff_eq, List.cons.injEq]
    constructor
    · rintro ⟨⟨⟨rfl, ha⟩, hb⟩, hc⟩
      exact ⟨a, b, c, t, ⟨rfl, rfl, rfl, rfl, rfl⟩, ha, hb, hc⟩
    · rintro ⟨a', b', c', t', ⟨rfl, rfl, rfl, rfl, rfl⟩, ha, hb, hc⟩
      exact ⟨⟨⟨rfl, ha⟩, hb⟩, hc⟩

lemma legacyAt_iff (cs : List Char) : legacyAt cs = true ↔ IsLegacyHit cs := by
  unfold legacyAt IsLegacyHit
  simp only [Bool.or_eq_true, br1_iff, br2_iff, br3_iff, br4_iff, or_assoc]

lemma legacyAny_iff (cs : List Char) :
    legacyAny cs = true ↔ ∃ l r, cs = l ++ r ∧ legacyAt r = true := by
  induction cs with
  | nil =>
    simp only [legacyAny]
    constructor
    · intro h; exact absurd h (by simp)
    · rintro ⟨l, r, h, hr⟩
      rcases List.append_eq_nil.mp h.symm with ⟨rfl, rfl⟩
      simp [legacyAt, br1, br2, br3, br4] at hr
  | cons c cs ih =>
    simp only [legacyAny, Bool.or_eq_true, ih]
    constructor
    · rintro (h | ⟨l, r, rfl, hr⟩)
      · exact ⟨[], c :: cs, rfl, h⟩
      · exact ⟨c :: l, r, rfl, hr⟩
    · rintro ⟨l, r, h, hr⟩
      cases l with
      | nil => left; rw [List.nil_append] at h; rw [h]; exact hr
      | cons x l =>
        right
        rw [List.cons_append, List.cons.injEq] at h
        exact ⟨l, r, h.2, hr⟩

lemma legacySearch_iff (s : String) :
    legacySearch s = true ↔ ContainsLegacyStamp s := by
  unfold legacySearch ContainsLegacyStamp
  rw [legacyAny_iff]
  constructor
  · rintro ⟨l, r, h, hr⟩
    exact ⟨l, r, h, (legacyAt_iff r).mp hr⟩
  · rintro ⟨l, r, h, hr⟩
    exact ⟨l, r, h, (legacyAt_iff r).mpr hr⟩

/-! ### Claim theorems C1 and C4 -/

/-- C1: with a baseline serial present, `check_serial` returns 1 exactly when
the current serial's decimal string is not today's date `YYYYMMDD` followed by
two digits, or the current serial is not strictly greater than the baseline;
otherwise it returns 0, and it never exceeds 1 even when both rules fail. -/
theorem c1_serial_with_baseline (date : String) (s0 s1 : Nat) :
    check_serial date s0 (some s1) ≤ 1 ∧
    (check_serial date s0 (some s1) = 0 ↔ (TodayStampedSerial date s0 ∧ s0 > s1)) ∧
    (check_serial date s0 (some s1) = 1 ↔ ¬ (TodayStampedSerial date s0 ∧ s0 > s1)) := by
  have hfmt := dateSerialMatch_iff date s0
  by_cases h1 : dateSerialMatch date (toString s0) = true <;>
    by_cases h2 : s0 > s1 <;>
      simp [check_serial, h1, h2, ← hfmt]

/-- C4: with no baseline serial, `check_serial`'s format rule passes exactly
when the serial's decimal string contains a substring matching
`19[7-9][0-9]|[2-9][0-9]{3}0[1-9]|1[12][012][0-9]|3[01]\d\d`; in particular
serial 2024010100 passes and serial 42 fails. -/
theorem c4_new_zone_serial_format (date : String) (n : Nat) :
    (check_serial date n none = 0 ↔ ContainsLegacyStamp (toString n)) ∧
    (check_serial date n none = 1 ↔ ¬ ContainsLegacyStamp (toString n)) ∧
    check_serial date 2024010100 none = 0 ∧
    check_serial date 42 none = 1 := by
  have hs := legacySearch_iff (toString n)
  refine ⟨?_, ?_, rfl, rfl⟩ <;>
    by_cases h : legacySearch (toString n) = true <;>
      simp [check_serial, h, ← hs]

/-! ### Helper lemmas: origin directives -/

/-- The spec-side conformance condition for an `$ORIGIN` directive line:
optional blanks, the literal `$ORIGIN`, then its argument text ending with a
trailing dot. -/
def OriginConforming (line : String) : Prop :=
  ∃ ws rest, (∀ c ∈ ws, c = ' ' ∨ c = '\t') ∧
    line.toList = ws ++ ("$ORIGIN".toList ++ (rest ++ ['.']))

lemma prefOf_iff (l1 l2 : List Char) :
    l1.isPrefixOf l2 = true ↔ ∃ t, l2 = l1 ++ t := by
  induction l1 generalizing l2 with
  | nil => simp [List.isPrefixOf]
  | cons a as ih =>
    cases l2 with
    | nil => simp [List.isPrefixOf]
    | cons b bs =>
      simp only [List.isPrefixOf, Bool.and_eq_true, beq_iff_eq, ih,
        List.cons_append, List.cons.injEq]
      constructor
      · rintro ⟨rfl, t, rfl⟩; exact ⟨t, rfl, rfl⟩
      · rintro ⟨t, rfl, rfl⟩; exact ⟨rfl, t, rfl⟩

lemma dropWhile_append_all {p : Char → Bool} (l1 l2 : List Char)
    (h : ∀ c ∈ l1, p c = true) :
    (l1 ++ l2).dropWhile p = l2.dropWhile p := by
  induction l1 with
  | nil => simp
  | cons a l ih =>
    have ha : p a = true := h a (List.mem_cons_self a l)
    rw [List.cons_append, List.dropWhile_cons, if_pos ha]
    exact ih (fun c hc => h c (List.mem_cons_of_mem a hc))

lemma eq_append_of_getLast? (l : List Char) (a : Char) (h : l.getLast? = some a) :
    ∃ init, l = init ++ [a] := by
  induction l with
  | nil => simp at h
  | cons x xs ih =>
    cases xs with
    | nil =>
      have hx : x = a := by simpa [List.getLast?] using h
      exact ⟨[], by simp [hx]⟩
    | cons y ys =>
      rw [List.getLast?_cons_cons] at h
      obtain ⟨init, hinit⟩ := ih h
      exact ⟨x :: init, by rw [List.cons_append, ← hinit]⟩

lemma mem_of_getLast?_eq (l : List Char) (a : Char) (h : l.getLast? = some a) :
    a ∈ l := by
  obtain ⟨init, rfl⟩ := eq_append_of_getLast? l a h
  simp

lemma getLast?_append_single (l : List Char) (a : Char) :
    (l ++ [a]).getLast? = some a := by
  induction l with
  | nil => rfl
  | cons x xs ih =>
    rw [List.cons_append]
    cases hxs : xs ++ [a] with
    | nil => exact absurd hxs (by simp)
    | cons y ys => rw [List.getLast?_cons_cons, ← hxs]; exact ih

lemma splitNl_ne_nil (cs : List Char) : splitNl cs ≠ [] := by
  cases cs with
  | nil => simp [splitNl]
  | cons c rest =>
    simp only [splitNl]
    split <;> simp

lemma splitNl_no_nl (cs : List Char) : ∀ l ∈ splitNl cs, '\n' ∉ l := by
  induction cs with
  | nil =>
    intro l hl
    simp only [splitNl, List.mem_singleton] at hl
    subst hl; simp
  | cons c rest ih =>
    intro l hl
    by_cases hc : c = '\n'
    · subst hc
      simp only [splitNl, if_true, List.mem_cons] at hl
      rcases hl with rfl | hl
      · simp
      · exact ih l hl
    · simp only [splitNl, if_neg hc, List.mem_cons] at hl
      obtain ⟨m, ms, hms⟩ := List.exists_cons_of_ne_nil (splitNl_ne_nil rest)
      rw [hms] at hl
      simp only [List.headD_cons, List.tail_cons] at hl
      rcases hl with rfl | hl
      · intro hmem
        rcases List.mem_cons.mp hmem with h1 | h2
        · exact hc h1.symm
        · exact ih m (by rw [hms]; exact List.mem_cons_self m ms) h2
      · exact ih l (by rw [hms]; exact List.mem_cons_of_mem m hl)

lemma parse_origin_no_nl (data line : String) (h : line ∈ parse_origin data) :
    '\n' ∉ line.toList := by
  unfold parse_origin at h
  rw [List.mem_map] at h
  obtain ⟨l, hl, rfl⟩ := h
  rw [List.mem_filter] at hl
  exact splitNl_no_nl data.toList l hl.1

lemma originLineOk_iff (line : String) (hnl : '\n' ∉ line.toList) :
    originLineOk line = true ↔ OriginConforming line := by
  have hcond : (line.toList.getLast? == some '\n') = false := by
    apply Bool.eq_false_iff.mpr
    intro hcontra
    rw [beq_iff_eq] at hcontra
    exact hnl (mem_of_getLast?_eq _ _ hcontra)
  have hany : (line.toList.any (fun c => c == '\n')) = false := by
    apply Bool.eq_false_iff.mpr
    intro hcontra
    rw [List.any_eq_true] at hcontra
    obtain ⟨x, hx, hx2⟩ := hcontra
    rw [beq_iff_eq] at hx2
    subst hx2
    exact hnl hx
  unfold originLineOk
  simp only [hcond, Bool.false_eq_true, if_false, hany, Bool.not_false,
    Bool.and_eq_true, and_true]
  constructor
  · rintro ⟨hpref, hlast⟩
    rw [beq_iff_eq] at hlast
    obtain ⟨t, ht⟩ := (prefOf_iff _ _).mp hpref
    have hsplit := List.takeWhile_append_dropWhile (p := isBlankChar) (l := line.toList)
    set ws := line.toList.takeWhile isBlankChar with hws
    have hcs : line.toList = ws ++ ("$ORIGIN".toList ++ t) := by
      rw [← ht, hsplit]
    have hwsblank : ∀ c ∈ ws, c = ' ' ∨ c = '\t' := by
      intro c hc
      have h2 := List.mem_takeWhile_imp hc
      simpa [isBlankChar] using h2
    cases t with
    | nil =>
      exfalso
      rw [hcs] at hlast
      rw [List.getLast?_append_of_ne_nil _ (by simp)] at hlast
      simp at hlast
    | cons u us =>
      have hlast2 : (u :: us).getLast? = some '.' := by
        rw [hcs, List.getLast?_append_of_ne_nil _ (by simp),
          List.getLast?_append_of_ne_nil _ (by simp)] at hlast
        exact hlast
      obtain ⟨init, hinit⟩ := eq_append_of_getLast? _ _ hlast2
      refine ⟨ws, init, hwsblank, ?_⟩
      rw [hcs, hinit]
  · rintro ⟨ws, rest, hwsblank, hcs⟩
    have hwsb : ∀ c ∈ ws, isBlankChar c = true := by
      intro c hc
      rcases hwsblank c hc with rfl | rfl <;> rfl
    constructor
    · rw [hcs, dropWhile_append_all _ _ hwsb]
      have hstep : List.dropWhile isBlankChar ("$ORIGIN".toList ++ (rest ++ ['.'])) =
          "$ORIGIN".toList ++ (rest ++ ['.']) := by
        rw [show ("$ORIGIN".toList ++ (rest ++ ['.'])) =
          '$' :: ("ORIGIN".toList ++ (rest ++ ['.'])) from rfl]
        rw [List.dropWhile_cons, if_neg (by decide)]
      rw [hstep]
      exact (prefOf_iff _ _).mpr ⟨_, rfl⟩
    · rw [beq_iff_eq, hcs]
      rw [show ws ++ ("$ORIGIN".toList ++ (rest ++ ['.'])) =
        (ws ++ ("$ORIGIN".toList ++ rest)) ++ ['.'] by simp]
      exact getLast?_append_single _ _

lemma check_origin_foldl (err : Nat) (l : List String) :
    l.foldl (fun e line => if originLineOk line then e else 1) err =
      if l.all originLineOk then err else 1 := by
  induction l generalizing err with
  | nil => simp
  | cons x xs ih =>
    simp only [List.foldl_cons, List.all_cons]
    by_cases hx : originLineOk x = true
    · simp [hx, ih]
    · rw [Bool.not_eq_true] at hx
      simp [hx, ih]

/-- C5: over the `$ORIGIN` directive lines extracted from a zone file,
`check_origin` returns 1 exactly when some line lacks the fully-qualified
trailing dot, returns 0 for an empty list, and never exceeds 1 however many
lines are non-conforming. -/
theorem c5_check_origin (data : String) (l : List String) :
    check_origin l ≤ 1 ∧
    check_origin ([] : List String) = 0 ∧
    (check_origin (parse_origin data) = 1 ↔
      ∃ line ∈ parse_origin data, ¬ OriginConforming line) ∧
    (check_origin (parse_origin data) = 0 ↔
      ∀ line ∈ parse_origin data, OriginConforming line) := by
  have hiff : ∀ line ∈ parse_origin data, (originLineOk line = true ↔ OriginConforming line) :=
    fun line hline => originLineOk_iff line (parse_origin_no_nl data line hline)
  have hall : ((parse_origin data).all originLineOk = true) ↔
      ∀ line ∈ parse_origin data, OriginConforming line := by
    rw [List.all_eq_true]
    exact ⟨fun h line hl => (hiff line hl).mp (h line hl),
      fun h line hl => (hiff line hl).mpr (h line hl)⟩
  refine ⟨?_, rfl, ?_, ?_⟩
  · unfold check_origin
    rw [check_origin_foldl]
    split <;> omega
  · unfold check_origin
    rw [check_origin_foldl]
    by_cases h : (parse_origin data).all originLineOk = true
    · rw [if_pos h]
      constructor
      · intro h0; exact absurd h0 (by omega)
      · rintro ⟨line, hline, hbad⟩
        exact absurd (hall.mp h line hline) hbad
    · rw [if_neg h]
      constructor
      · intro _
        have hnall : ¬ ∀ line ∈ parse_origin data, OriginConforming line :=
          fun hf => h (hall.mpr hf)
        push_neg at hnall
        exact hnall
      · intro _; rfl
  · unfold check_origin
    rw [check_origin_foldl]
    by_cases h : (parse_origin data).all originLineOk = true
    · rw [if_pos h]
      exact ⟨fun _ => hall.mp h, fun _ => rfl⟩
    · rw [if_neg h]
      constructor
      · intro h1; exact absurd h1 (by omega)
      · intro hx; exact absurd (hall.mpr hx) h

/-! ### Helper lemmas: the zone-file filter loop -/

lemma mem_removeFirst_of_ne {l : List String} {x p : String} (hne : p ≠ x)
    (hp : p ∈ l) : p ∈ removeFirst l x := by
  induction l with
  | nil => simp at hp
  | cons a rest ih =>
    rcases List.mem_cons.mp hp with rfl | hmem
    · rw [removeFirst, if_neg hne]
      exact List.mem_cons_self p _
    · rw [removeFirst]
      split
      · exact hmem
      · exact List.mem_cons_of_mem a (ih hmem)

lemma mem_filterLoopFuel (fuel : Nat) (l : List String) (i : Nat) (p : String)
    (hp : p ∈ l) (hok : zonefilePattern (basename p) = true) :
    p ∈ filterLoopFuel fuel l i := by
  induction fuel generalizing l i with
  | zero => simpa [filterLoopFuel] using hp
  | succ fuel ih =>
    rw [filterLoopFuel]
    split
    · split
      · exact ih l (i + 1) hp
      · rename_i h hitem
        apply ih _ (i + 1)
        apply mem_removeFirst_of_ne _ hp
        intro hcontra
        rw [hcontra] at hok
        exact hitem hok
    · exact hp

/-- C3 evaluation: the `remove`-inside-`for` filter skips the element that
shifts into the removed element's index, so with two consecutive
non-matching paths the second survives the filter; the spec's own
three-element example happens to avoid consecutive removals and does get
fully filtered. -/
theorem c3_filter_skips_after_removal :
    get_all_zonefiles ["a.txt", "b.txt"] = ["b.txt"] ∧
    zonefilePattern (basename "b.txt") = false ∧
    get_changed_zonefiles ["a.txt", "b.txt"] = ["b.txt"] ∧
    get_all_zonefiles ["db.example.com", "notes.txt", "zones/foo.zone"] =
      ["db.example.com", "zones/foo.zone"] := by
  refine ⟨rfl, rfl, rfl, rfl⟩

/-- C9: a repository-wide revision count of 0 — in pipeline (`ci-cd`) mode a
raw `git rev-list --count` of 1 after the decrement, or any failure of the
count command — makes `main` validate the full tracked listing rather than
the changed-files listing, and every tracked path matching the zone-file
pattern is in that listing. -/
theorem c9_rev_count_zero_selects_all (tracked changed : List String) (raw : Int)
    (p : String) :
    get_rev_count CallMethod.ciCd (some 1) = 0 ∧
    get_rev_count CallMethod.ciCd none = 0 ∧
    get_rev_count CallMethod.gitHook none = 0 ∧
    get_rev_count CallMethod.ciCd (some raw) = raw - 1 ∧
    mainFileSelection 0 tracked changed = some (get_all_zonefiles tracked) ∧
    (p ∈ tracked → p ≠ "" → zonefilePattern (basename p) = true →
      p ∈ get_all_zonefiles tracked) := by
  refine ⟨rfl, rfl, rfl, rfl, rfl, ?_⟩
  intro hmem hne hok
  unfold get_all_zonefiles zonefileScan
  apply mem_filterLoopFuel _ _ _ _ _ hok
  rw [List.mem_filter]
  refine ⟨hmem, ?_⟩
  simp [hne]

/-- C9 witness: in pipeline mode with a single-commit repository the tracked
zone file `db.alpha` is selected. -/
theorem c9_witness :
    get_rev_count CallMethod.ciCd (some 1) = 0 ∧
    mainFileSelection 0 ["db.alpha", "b.txt"] [] =
      some (get_all_zonefiles ["db.alpha", "b.txt"]) ∧
    "db.alpha" ∈ get_all_zonefiles ["db.alpha", "b.txt"] := by
  have h := c9_rev_count_zero_selects_all ["db.alpha", "b.txt"] [] 1 "db.alpha"
  exact ⟨h.1, h.2.2.2.2.1, h.2.2.2.2.2 (by decide) (by decide) (by decide)⟩

/-- C6 counterexample: an external-checker exit status of 2 contributes 2 to
the error counter (`err_counter += check_zone(...)` adds the raw return
code), not 1 as the claim states. -/
theorem c6_counterexample :
    check_zone 2 = 2 ∧ check_zone 2 ≠ 1 := by
  refine ⟨rfl, by decide⟩

/-- C6 amended: a zero exit status of the external checker contributes 0 to
the file's error counter, and a non-zero exit status contributes exactly the
tool's exit status (hence at least 1), not always 1. -/
theorem c6_amended (r : Nat) :
    check_zone 0 = 0 ∧ (r ≠ 0 → check_zone r = r ∧ 1 ≤ check_zone r) := by
  refine ⟨rfl, fun hr => ?_⟩
  unfold check_zone
  rw [if_neg hr]
  omega

/-- C6 witness: the amended statement at exit status 3. -/
theorem c6_witness :
    check_zone 0 = 0 ∧ check_zone 3 = 3 ∧ 1 ≤ check_zone 3 := by
  have h := c6_amended 3
  exact ⟨h.1, (h.2 (by decide)).1, (h.2 (by decide)).2⟩

/-! ### Helper lemmas: the orchestrator -/

lemma fileStep_zone_fatal (date : String) (err : Nat) (f : ZFile)
    (hz : parse_zone_ok f.data0 = false) : fileStep date err f = none := by
  simp only [fileStep, hz, Bool.false_eq_true, if_false]

lemma fileStep_zone_fail (date : String) (err : Nat) (f : ZFile)
    (hz : parse_zone_ok f.data0 = true) (hnz : check_zone f.zoneExit ≠ 0) :
    fileStep date err f = some (err + check_zone f.zoneExit, [Stage.zone]) := by
  have hne : err ≠ err + check_zone f.zoneExit := by omega
  simp only [fileStep, hz, if_true]
  rw [if_neg (fun h => hne h.1)]
  dsimp only
  rw [if_neg (fun h => hne h.1)]
  dsimp only
  rw [if_neg hne]

lemma fileStep_serial_fail_rev0 (date : String) (err : Nat) (f : ZFile) (s0 : Nat)
    (hz : parse_zone_ok f.data0 = true) (hcz : check_zone f.zoneExit = 0)
    (hrev : f.revCount = 0) (hs0 : parse_serial f.data0 = some s0)
    (hcs : check_serial date s0 none = 1) :
    fileStep date err f = some (err + 1, [Stage.zone, Stage.serial]) := by
  have hne : err ≠ err + 1 := by omega
  simp only [fileStep, hz, if_true, hcz, Nat.add_zero]
  rw [if_pos ⟨trivial, hrev⟩, hs0]
  dsimp only
  rw [hcs]
  rw [if_neg (fun h => hne h.1)]
  dsimp only
  rw [if_neg hne]

lemma fileStep_serial_fail_revpos (date : String) (err : Nat) (f : ZFile) (s0 s1 : Nat)
    (hz : parse_zone_ok f.data0 = true) (hcz : check_zone f.zoneExit = 0)
    (hrev : f.revCount > 0) (hs0 : parse_serial f.data0 = some s0)
    (hs1 : parse_serial f.data1 = some s1)
    (hcs : check_serial date s0 (some s1) = 1) :
    fileStep date err f = some (err + 1, [Stage.zone, Stage.serial]) := by
  have hne : err ≠ err + 1 := by omega
  have hrevne : f.revCount ≠ 0 := by omega
  simp only [fileStep, hz, if_true, hcz, Nat.add_zero]
  rw [if_neg (fun h => hrevne h.2)]
  dsimp only
  rw [if_pos ⟨rfl, hrev⟩, hs0]
  dsimp only
  rw [hs1]
  dsimp only
  rw [hcs]
  rw [if_neg hne]
  rfl

lemma fileStep_serial_fatal_rev0 (date : String) (err : Nat) (f : ZFile)
    (hz : parse_zone_ok f.data0 = true) (hcz : check_zone f.zoneExit = 0)
    (hrev : f.revCount = 0) (hs0 : parse_serial f.data0 = none) :
    fileStep date err f = none := by
  simp only [fileStep, hz, if_true, hcz, Nat.add_zero]
  rw [if_pos ⟨trivial, hrev⟩, hs0]

lemma fileStep_serial_fatal_revpos (date : String) (err : Nat) (f : ZFile)
    (hz : parse_zone_ok f.data0 = true) (hcz : check_zone f.zoneExit = 0)
    (hrev : f.revCount > 0)
    (hs : parse_serial f.data0 = none ∨ parse_serial f.data1 = none) :
    fileStep date err f = none := by
  have hrevne : f.revCount ≠ 0 := by omega
  simp only [fileStep, hz, if_true, hcz, Nat.add_zero]
  rw [if_neg (fun h => hrevne h.2)]
  dsimp only
  rw [if_pos ⟨rfl, hrev⟩]
  cases hd0 : parse_serial f.data0 with
  | none => rfl
  | some s0 =>
    rcases hs with h0 | h1
    · rw [hd0] at h0; exact absurd h0 (by simp)
    · dsimp only
      rw [h1]

lemma preCommitAux_cons_some (date : String) (err : Nat) (f : ZFile)
    (rest : List ZFile) (e : Nat) (st : List Stage)
    (h : fileStep date err f = some (e, st)) :
    preCommitAux date err (f :: rest) = preCommitAux date e rest := by
  rw [preCommitAux, h]

lemma preCommitAux_cons_none (date : String) (err : Nat) (f : ZFile)
    (rest : List ZFile) (h : fileStep date err f = none) :
    preCommitAux date err (f :: rest) = none := by
  rw [preCommitAux, h]

lemma preCommitExit_of_some (date : String) (files : List ZFile) (total : Nat)
    (h : pre_commit date files = some total) :
    (preCommitExit date files = 0 ↔ total = 0) ∧
    (preCommitExit date files = 1 ↔ total ≠ 0) := by
  unfold preCommitExit
  rw [h]
  by_cases ht : total = 0 <;> simp [ht]

lemma preCommitExit_of_none (date : String) (files : List ZFile)
    (h : pre_commit date files = none) : preCommitExit date files = 1 := by
  unfold preCommitExit
  rw [h]

/-- C2: per file, once a check stage fails the remaining stages for that file
are skipped (a failing external check leaves only the zone stage; a failing
serial check — on a new zone and on a zone with a baseline alike — leaves
zone and serial, skipping the origin stage); a non-fatal file never stops the
loop, which continues into the remaining files with the updated aggregate
counter; and when all files complete, the process exit is non-zero exactly
when the aggregate error count is non-zero. -/
theorem c2_orchestrator (date : String) (err : Nat) (f : ZFile)
    (rest files : List ZFile) :
    (parse_zone_ok f.data0 = true → check_zone f.zoneExit ≠ 0 →
      fileStep date err f = some (err + check_zone f.zoneExit, [Stage.zone])) ∧
    (parse_zone_ok f.data0 = true → check_zone f.zoneExit = 0 → f.revCount = 0 →
      ∀ s0, parse_serial f.data0 = some s0 → check_serial date s0 none = 1 →
        fileStep date err f = some (err + 1, [Stage.zone, Stage.serial])) ∧
    (parse_zone_ok f.data0 = true → check_zone f.zoneExit = 0 → f.revCount > 0 →
      ∀ s0 s1, parse_serial f.data0 = some s0 → parse_serial f.data1 = some s1 →
        check_serial date s0 (some s1) = 1 →
          fileStep date err f = some (err + 1, [Stage.zone, Stage.serial])) ∧
    (∀ e st, fileStep date err f = some (e, st) →
      preCommitAux date err (f :: rest) = preCommitAux date e rest) ∧
    (∀ total, pre_commit date files = some total →
      ((preCommitExit date files = 0 ↔ total = 0) ∧
       (preCommitExit date files = 1 ↔ total ≠ 0))) := by
  refine ⟨fileStep_zone_fail date err f, ?_, ?_, ?_, ?_⟩
  · intro hz hcz hrev s0 hs0 hcs
    exact fileStep_serial_fail_rev0 date err f s0 hz hcz hrev hs0 hcs
  · intro hz hcz hrev s0 s1 hs0 hs1 hcs
    exact fileStep_serial_fail_revpos date err f s0 s1 hz hcz hrev hs0 hs1 hcs
  · intro e st h
    exact preCommitAux_cons_some date err f rest e st h
  · intro total h
    exact preCommitExit_of_some date files total h

/-- Existing zone (revision count 1) whose current and baseline serials are
equal, so the increment rule fails while everything parses. -/
def zf2b : ZFile :=
  { data0 := zoneTextParenSpace, data1 := zoneTextParenSpace, revCount := 1, zoneExit := 0 }

/-- C2 witness: a file whose external check exits 1 contributes 1 with its
later stages skipped; a baseline file whose serial check fails ends at the
serial stage with the origin stage skipped; the loop continues into the next
file with counter 1; and a completed run with total 1 exits non-zero. -/
theorem c2_witness :
    fileStep "20260101" 0 zf2 = some (0 + check_zone zf2.zoneExit, [Stage.zone]) ∧
    fileStep "20260101" 0 zf2b = some (0 + 1, [Stage.zone, Stage.serial]) ∧
    preCommitAux "20260101" 0 [zf2, zf2] = preCommitAux "20260101" 1 [zf2] ∧
    (preCommitExit "20260101" [zf2] = 0 ↔ (1 : Nat) = 0) ∧
    (preCommitExit "20260101" [zf2] = 1 ↔ (1 : Nat) ≠ 0) := by
  have h := c2_orchestrator "20260101" 0 zf2 [zf2] [zf2]
  have hb := c2_orchestrator "20260101" 0 zf2b [] []
  refine ⟨h.1 rfl (by decide),
    hb.2.2.1 rfl rfl (by decide) 2024010100 2024010100 rfl rfl rfl,
    h.2.2.2.1 1 [Stage.zone] (by rfl), ?_, ?_⟩
  · exact (h.2.2.2.2 1 (by rfl)).1
  · exact (h.2.2.2.2 1 (by rfl)).2

/-- C7 counterexample: for the concrete new zone `zf7` (external check exits
0, serial 42 fails validation, one trailing-dot-less `$ORIGIN` line), the run
fails with exit 1 but the origin stage is NOT run: the stage trace is
`[zone, serial]`, with no origin stage, even though the origin check would
have flagged the file had it run.  This contradicts the claim that the origin
check has still been run. -/
theorem c7_counterexample :
    fileStep "20260101" 0 zf7 = some (1, [Stage.zone, Stage.serial]) ∧
    Stage.origin ∉ [Stage.zone, Stage.serial] ∧
    preCommitExit "20260101" [zf7] = 1 ∧
    check_origin (parse_origin zf7.data0) = 1 := by
  exact ⟨rfl, by decide, rfl, rfl⟩

/-- C7 amended: on a new zone file whose external check passes but whose
serial fails validation, the run fails overall with exit code 1 and the
origin check for that file is skipped (the serial failure short-circuits it);
when the external check itself fails, the serial and origin checks are both
skipped. -/
theorem c7_amended (date : String) (err : Nat) (f : ZFile) :
    (parse_zone_ok f.data0 = true → check_zone f.zoneExit = 0 → f.revCount = 0 →
      ∀ s0, parse_serial f.data0 = some s0 → check_serial date s0 none = 1 →
        fileStep date 0 f = some (1, [Stage.zone, Stage.serial]) ∧
        preCommitExit date [f] = 1) ∧
    (parse_zone_ok f.data0 = true → check_zone f.zoneExit ≠ 0 →
      fileStep date err f = some (err + check_zone f.zoneExit, [Stage.zone])) := by
  constructor
  · intro hz hcz hrev s0 hs0 hcs
    have hstep := fileStep_serial_fail_rev0 date 0 f s0 hz hcz hrev hs0 hcs
    refine ⟨hstep, ?_⟩
    have haux : pre_commit date [f] = some 1 := by
      unfold pre_commit
      rw [preCommitAux_cons_some date 0 f [] 1 [Stage.zone, Stage.serial] hstep]
      rfl
    exact (preCommitExit_of_some date [f] 1 haux).2.mpr (by decide)
  · exact fileStep_zone_fail date err f

/-- C7 witness: the amended statement at the concrete file `zf7`. -/
theorem c7_witness :
    fileStep "20260102" 0 zf7 = some (1, [Stage.zone, Stage.serial]) ∧
    preCommitExit "20260102" [zf7] = 1 ∧
    fileStep "20260102" 0 zf2 = some (0 + check_zone zf2.zoneExit, [Stage.zone]) := by
  have h1 := (c7_amended "20260102" 0 zf7).1 rfl rfl rfl 42 rfl rfl
  have h2 := (c7_amended "20260102" 0 zf2).2 rfl (by decide)
  exact ⟨h1.1, h1.2, h2⟩

/-- Existing zone (revision count 1) whose baseline content has no parseable
serial. -/
def zf8 : ZFile :=
  { data0 := zoneTextParenSpace, data1 := "empty", revCount := 1, zoneExit := 0 }

/-- C8: when a file's zone name is unparsable (no SOA line and no `$ORIGIN`
directive), or its serial is unparsable where the serial stage runs, the run
aborts fatally — the remaining files (an arbitrary `rest`) are never
processed — and a fatal abort exits with code 1. -/
theorem c8_fatal_parse_aborts (date : String) (err : Nat) (f : ZFile)
    (rest files : List ZFile) :
    (parse_zone_ok f.data0 = false → preCommitAux date err (f :: rest) = none) ∧
    (parse_zone_ok f.data0 = true → check_zone f.zoneExit = 0 → f.revCount = 0 →
      parse_serial f.data0 = none → preCommitAux date err (f :: rest) = none) ∧
    (parse_zone_ok f.data0 = true → check_zone f.zoneExit = 0 → f.revCount > 0 →
      (parse_serial f.data0 = none ∨ parse_serial f.data1 = none) →
      preCommitAux date err (f :: rest) = none) ∧
    (pre_commit date files = none → preCommitExit date files = 1) := by
  refine ⟨?_, ?_, ?_, preCommitExit_of_none date files⟩
  · intro hz
    exact preCommitAux_cons_none date err f rest (fileStep_zone_fatal date err f hz)
  · intro hz hcz hrev hs0
    exact preCommitAux_cons_none date err f rest
      (fileStep_serial_fatal_rev0 date err f hz hcz hrev hs0)
  · intro hz hcz hrev hs
    exact preCommitAux_cons_none date err f rest
      (fileStep_serial_fatal_revpos date err f hz hcz hrev hs)

/-- C8 witness: the fatal aborts at concrete files — unparsable zone name,
unparsable current serial, unparsable baseline serial — each with a pending
rest of the file list that is never processed, and the exit code 1. -/
theorem c8_witness :
    preCommitAux "20260101" 0 [zfBadZone, zf2] = none ∧
    preCommitAux "20260101" 0 [zf10, zf2] = none ∧
    preCommitAux "20260101" 0 [zf8, zf2] = none ∧
    preCommitExit "20260101" [zfBadZone] = 1 := by
  refine ⟨(c8_fatal_parse_aborts "20260101" 0 zfBadZone [zf2] []).1 rfl,
    (c8_fatal_parse_aborts "20260101" 0 zf10 [zf2] []).2.1 rfl rfl rfl rfl,
    (c8_fatal_parse_aborts "20260101" 0 zf8 [zf2] []).2.2.1 rfl rfl (by decide) (Or.inr rfl),
    (c8_fatal_parse_aborts "20260101" 0 zfBadZone [] [zfBadZone]).2.2.2 (by rfl)⟩

/-! ### Helper lemmas: parse_serial requires whitespace after the parenthesis -/

lemma eatLit_sfx (ls cs cs2 : List Char) (h : eatLit ls cs = some cs2) :
    cs2 <:+ cs := by
  induction ls generalizing cs with
  | nil =>
    rw [eatLit] at h
    cases h
    exact List.suffix_refl cs2
  | cons l ls ih =>
    cases cs with
    | nil => simp [eatLit] at h
    | cons c cs =>
      rw [eatLit] at h
      by_cases hc : (c == l) = true
      · rw [if_pos hc] at h
        exact (ih cs h).trans (List.suffix_cons c cs)
      · rw [if_neg hc] at h
        simp at h

lemma eatPlus_sfx (p : Char → Bool) (cs cs2 : List Char)
    (h : eatPlus p cs = some cs2) : cs2 <:+ cs := by
  cases cs with
  | nil => simp [eatPlus] at h
  | cons c cs =>
    rw [eatPlus] at h
    by_cases hc : p c = true
    · rw [if_pos hc] at h
      cases h
      exact (List.dropWhile_suffix p).trans (List.suffix_cons c cs)
    · rw [if_neg hc] at h
      simp at h

lemma eatPlus_head (p : Char → Bool) (cs cs2 : List Char)
    (h : eatPlus p cs = some cs2) : ∃ c rest, cs = c :: rest ∧ p c = true := by
  cases cs with
  | nil => simp [eatPlus] at h
  | cons c rest =>
    refine ⟨c, rest, rfl, ?_⟩
    rw [eatPlus] at h
    by_cases hc : p c = true
    · exact hc
    · rw [if_neg hc] at h
      simp at h

lemma eatLit_single (x : Char) (cs cs2 : List Char)
    (h : eatLit [x] cs = some cs2) : cs = x :: cs2 := by
  cases cs with
  | nil => simp [eatLit] at h
  | cons c rest =>
    rw [eatLit] at h
    by_cases hc : (c == x) = true
    · rw [if_pos hc] at h
      rw [eatLit] at h
      cases h
      rw [beq_iff_eq] at hc
      rw [hc]
    · rw [if_neg hc] at h
      simp at h

lemma serialAt_paren (cs : List Char) (n : Nat) (h : serialAt cs = some n) :
    ∃ l c r, cs = l ++ '(' :: c :: r ∧ isSpaceChar c = true := by
  rw [serialAt] at h
  simp only [Option.bind_eq_some] at h
  obtain ⟨cs1, h1, cs2, h2, cs3, h3, cs4, h4, cs5, h5, cs6, h6, cs7, h7, cs8, h8,
    cs9, h9, cs10, h10, hfin⟩ := h
  have s1 := eatLit_sfx _ _ _ h1
  have s2 := (eatPlus_sfx _ _ _ h2).trans s1
  have s3 := (eatLit_sfx _ _ _ h3).trans s2
  have s4 := (eatPlus_sfx _ _ _ h4).trans s3
  have s5 := (eatPlus_sfx _ _ _ h5).trans s4
  have s6 := (eatPlus_sfx _ _ _ h6).trans s5
  have s7 := (eatPlus_sfx _ _ _ h7).trans s6
  have s8 := (eatPlus_sfx _ _ _ h8).trans s7
  have h9' : cs8 = '(' :: cs9 := eatLit_single '(' cs8 cs9 h9
  obtain ⟨c, rest, hrest, hc⟩ := eatPlus_head isSpaceChar cs9 cs10 h10
  obtain ⟨l, hl⟩ := s8
  refine ⟨l, c, rest, ?_, hc⟩
  rw [← hl, h9', hrest]

lemma searchSerial_paren (cs : List Char) (n : Nat) (h : searchSerial cs = some n) :
    ∃ l c r, cs = l ++ '(' :: c :: r ∧ isSpaceChar c = true := by
  induction cs with
  | nil => simp [searchSerial] at h
  | cons c0 cs ih =>
    rw [searchSerial] at h
    cases hsa : serialAt (c0 :: cs) with
    | some m => exact serialAt_paren (c0 :: cs) m hsa
    | none =>
      rw [hsa] at h
      obtain ⟨l, c, r, hcs, hc⟩ := ih h
      exact ⟨c0 :: l, c, r, by rw [List.cons_append, hcs], hc⟩

/-- Adjacent-pair scan: no `(` in the list is immediately followed by a
whitespace character. -/
def noWsAfterParenB : List Char → Bool
  | [] => true
  | [_] => true
  | c :: d :: rest => (!(c == '(' && isSpaceChar d)) && noWsAfterParenB (d :: rest)

lemma noWsAfterParenB_no_pair (l : List Char) (c : Char) (r : List Char) :
    noWsAfterParenB (l ++ '(' :: c :: r) = true → isSpaceChar c = false := by
  induction l with
  | nil =>
    intro h
    rw [List.nil_append, noWsAfterParenB, Bool.and_eq_true] at h
    have h1 := h.1
    simp at h1
    exact h1
  | cons x l ih =>
    intro h
    rw [List.cons_append] at h
    cases hl : l ++ '(' :: c :: r with
    | nil => exact absurd hl (by simp)
    | cons y ys =>
      rw [hl, noWsAfterParenB, Bool.and_eq_true] at h
      have htail := h.2
      rw [← hl] at htail
      exact ih htail

/-- C10: `parse_serial` requires at least one whitespace character between the
SOA record's opening parenthesis and the serial: on any text with no
whitespace directly after a `(`, parsing fails, and on such a zone file the
whole run aborts fatally with exit code 1 even though a parenthesized numeric
block is present (adding one space after the `(` makes the same text
parse). -/
theorem c10_paren_requires_whitespace (date : String) (data : String) :
    (noWsAfterParenB data.toList = true → parse_serial data = none) ∧
    parse_serial zoneTextNoParenSpace = none ∧
    noWsAfterParenB zoneTextNoParenSpace.toList = true ∧
    parse_serial zoneTextParenSpace = some 2024010100 ∧
    pre_commit date [zf10] = none ∧
    preCommitExit date [zf10] = 1 := by
  refine ⟨?_, rfl, rfl, rfl, rfl, rfl⟩
  intro h
  cases hps : parse_serial data with
  | none => rfl
  | some n =>
    exfalso
    obtain ⟨l, c, r, hcs, hsp⟩ := searchSerial_paren data.toList n hps
    have hfalse := noWsAfterParenB_no_pair l c r (by rw [← hcs]; exact h)
    rw [hsp] at hfalse
    exact absurd hfalse (by decide)

/-- C10 witness: a text whose parenthesized numeric block follows `(` with no
whitespace anywhere after a parenthesis fails to parse. -/
theorem c10_witness :
    parse_serial "zone. IN SOA ns.zone. admin.zone. (123 456)" = none := by
  exact (c10_paren_requires_whitespace "20260101"
    "zone. IN SOA ns.zone. admin.zone. (123 456)").1 rfl
